import Mathlib

/-!
Verification of the component-selection and output-assembly core of
`Orange/widgets/unsupervised/owpca.py` (class `OWPCA`).

The widget state and its operations are shallowly embedded:
* Python floats are modelled exactly by `FloatV` (a rational value, or one
  of the non-finite values `posInf`, `negInf`, `nan`); once a spectrum is
  installed its cumulative sequence is all-finite (see
  `cumsumF_all_finite_of_last_finite`), so the installed fields hold plain
  rationals.
* `numpy.searchsorted(a, v)` (side `left`) on a sorted array returns the
  first index whose element is `≥ v`; `searchsorted` below computes that
  index by a linear scan, which agrees with numpy's binary search on the
  sorted inputs all theorems assume.
* Python `int(x)` truncates toward zero: `pyInt`.
* GUI plumbing (plots, spin-box ranges, auto-commit deferral, report
  generation, SQL sampling) is out of scope per the spec; the plot cut
  point set by `plot.set_cut_point` is retained as the `plotCut` field and
  a triggered `_invalidate_selection()` is returned as a `Bool` flag.
-/

/-- A Python float value: finite rational, `inf`, `-inf`, or `nan`. -/
inductive FloatV
  | fin (q : ℚ)
  | posInf
  | negInf
  | nan
deriving DecidableEq, Repr

/-- Models `numpy.isfinite`. -/
def FloatV.isFinite : FloatV → Bool
  | .fin _ => true
  | _ => false

/-- IEEE addition on the abstracted float values. -/
def FloatV.add : FloatV → FloatV → FloatV
  | .fin a, .fin b => .fin (a + b)
  | .nan, _ => .nan
  | _, .nan => .nan
  | .posInf, .negInf => .nan
  | .negInf, .posInf => .nan
  | .posInf, _ => .posInf
  | _, .posInf => .posInf
  | .negInf, _ => .negInf
  | _, .negInf => .negInf

/-- Models `numpy.cumsum` over float values, with running sum `acc`. -/
def cumsumFrom (acc : FloatV) : List FloatV → List FloatV
  | [] => []
  | x :: xs =>
    let acc' := acc.add x
    acc' :: cumsumFrom acc' xs

/-- Models `numpy.cumsum(variance_ratio)`. -/
def cumsumF (l : List FloatV) : List FloatV := cumsumFrom (.fin 0) l

/-- Python `int(x)` on a real value: truncation toward zero. -/
def pyInt (q : ℚ) : ℤ := if 0 ≤ q then ⌊q⌋ else ⌈q⌉

/-- Models `numpy.searchsorted(a, v)` with side `left` on a sorted array: the
insertion index, i.e. the number of leading elements strictly below `v`. -/
def searchsorted : List ℚ → ℚ → ℕ
  | [], _ => 0
  | x :: xs, v => if x < v then searchsorted xs v + 1 else 0

/-- An Orange data table, abstracted to the structure the claims speak
about: feature-column names, the numeric matrix `X` (row major), class
variable names, meta variable names and the meta values (row major).
Display names of tables are dropped. -/
structure Table where
  attrs : List String
  X : List (List ℚ)
  class_vars : List String
  metas : List String
  metaVals : List (List String)
deriving DecidableEq, Inhabited, Repr

/-- The widget fields set together by a successful fit and cleared together
by `OWPCA.clear`: `self._pca` (with its `components_` loading matrix, its
`orig_domain` attribute names and, as `fullTransform`, the value of
`self._pca(self.data)`), `self._variance_ratio` and `self._cumulative`.
The installed sequences hold exact rationals: the install guard checks the
last cumulative value is finite, which forces every value to be finite
(`cumsumF_all_finite_of_last_finite`). -/
structure Fitted where
  explained_variance_ratio_ : List ℚ
  cumulative : List ℚ
  components_ : List (List ℚ)
  orig_attrs : List String
  fullTransform : Table
deriving DecidableEq, Repr

/-- The state of the `OWPCA` widget relevant to the core logic.
`applyCount` instruments how many times `self._pca(self.data)` — the
provider's apply-to-full-dataset path — has run. -/
structure OWPCA where
  data : Option Table
  ncomponents : ℕ
  variance_covered : ℤ
  pca : Option Fitted
  transformed : Option Table
  projectorComponent : ℕ
  plotCut : ℕ
  trivialWarning : Bool
  applyCount : ℕ
deriving DecidableEq, Repr

/-- The three outputs of one commit: `Outputs.transformed_data`,
`Outputs.components`, and the `component` attribute carried by the always
emitted `Outputs.pca` projector. -/
structure CommitOut where
  transformed_data : Option Table
  components : Option Table
  pca : ℕ
deriving DecidableEq, Repr

/-- Source method `clear` (the plot is cleared; its cut point resets). -/
def OWPCA.clear (w : OWPCA) : OWPCA :=
  { w with pca := none, transformed := none, plotCut := 0 }

/-- Source method `commit` (lines 287–316): assemble and send the outputs,
filling the full-transform cache on first use. -/
def OWPCA.commit (w : OWPCA) : OWPCA × CommitOut :=
  match w.pca with
  | none =>
    ({ w with projectorComponent := w.ncomponents },
     ⟨none, none, w.ncomponents⟩)
  | some fd =>
    let (w, full) :=
      match w.transformed with
      | none =>
        -- Compute the full transform (MAX_COMPONENTS components) once.
        ({ w with transformed := some fd.fullTransform,
                  applyCount := w.applyCount + 1 }, fd.fullTransform)
      | some t => (w, t)
    let d := w.data.getD default
    let transformedT : Table :=
      { attrs := full.attrs.take w.ncomponents
        X := full.X.map (fun row => row.take w.ncomponents)
        class_vars := d.class_vars
        metas := d.metas
        metaVals := full.metaVals }
    let componentsT : Table :=
      { attrs := fd.orig_attrs
        X := fd.components_.take w.ncomponents
        class_vars := []
        metas := ["component"]
        metaVals := (List.range w.ncomponents).map
          (fun i => ["PC" ++ toString (i + 1)]) }
    let w := { w with projectorComponent := w.ncomponents }
    (w, ⟨some transformedT, some componentsT, w.ncomponents⟩)

/-- Source method `_update_selection_component_spin` (lines 216–233), the
callback run after the components spin box wrote `ncomponents`.  Returns
the new state and whether `_invalidate_selection()` (a re-commit) was
triggered.  The source's `numpy.isfinite(var)` guard always holds here:
installed cumulative values are rationals. -/
def OWPCA.update_selection_component_spin (w : OWPCA) : OWPCA × Bool :=
  match w.pca with
  | none => (w, true)
  | some fd =>
    let cut := if w.ncomponents = 0
      then fd.explained_variance_ratio_.length
      else w.ncomponents
    let var := fd.cumulative.getD (cut - 1) 0
    let w := { w with variance_covered := pyInt (var * 100) }
    let w := { w with plotCut := cut }
    (w, true)

/-- The spec's `setByCount(n)`: the spin box stores `n` into
`ncomponents`, then its callback runs. -/
def OWPCA.setByCount (w : OWPCA) (n : ℕ) : OWPCA × Bool :=
  OWPCA.update_selection_component_spin { w with ncomponents := n }

/-- Source method `_update_selection_variance_spin` (lines 235–245), the
callback run after the variance spin box wrote `variance_covered`. -/
def OWPCA.update_selection_variance_spin (w : OWPCA) : OWPCA × Bool :=
  match w.pca with
  | none => (w, false)
  | some fd =>
    let cut := min
      (searchsorted fd.cumulative ((w.variance_covered : ℚ) / 100) + 1)
      fd.cumulative.length
    let w := { w with ncomponents := cut }
    let w := { w with plotCut := cut }
    (w, true)

/-- The spec's `setByVariance(p)`: the spin box stores `p` into
`variance_covered`, then its callback runs. -/
def OWPCA.setByVariance (w : OWPCA) (p : ℤ) : OWPCA × Bool :=
  OWPCA.update_selection_variance_spin { w with variance_covered := p }

/-- Source method `_nselected_components` (lines 257–276), the spec's
`resolveCount()`: returns the resolved number of selected components and
mutates the selection state.  `numpy.floor(self.variance_covered / 100.0)`
is the rational `⌊variance_covered / 100⌋`; the source's
`assert numpy.isfinite(var_max)` always holds on rational values. -/
def OWPCA.nselected_components (w : OWPCA) : OWPCA × ℕ :=
  match w.pca with
  | none => (w, 0)
  | some fd =>
    let max_comp := if w.ncomponents = 0
      then fd.explained_variance_ratio_.length
      else w.ncomponents
    let var_max := fd.cumulative.getD (max_comp - 1) 0
    if var_max ≠ ((⌊(w.variance_covered : ℚ) / 100⌋ : ℤ) : ℚ) then
      ({ w with variance_covered := pyInt (var_max * 100) }, max_comp)
    else
      let cut := searchsorted fd.cumulative
        ((w.variance_covered : ℚ) / 100) + 1
      ({ w with ncomponents := cut }, cut)

/-- The spectrum length of the installed projection (`0` when none is
installed), i.e. `len(self._variance_ratio)`. -/
def spectrumLength (w : OWPCA) : ℕ :=
  match w.pca with
  | none => 0
  | some fd => fd.explained_variance_ratio_.length

/-- The §8 selection invariant: the variance percentage lies in `[0, 100]`
and the component count is the sentinel `0` or in `[1, spectrumLength]`. -/
def SelInvariant (w : OWPCA) : Prop :=
  0 ≤ w.variance_covered ∧ w.variance_covered ≤ 100 ∧
    (w.ncomponents = 0 ∨
      (1 ≤ w.ncomponents ∧ w.ncomponents ≤ spectrumLength w))

instance (w : OWPCA) : Decidable (SelInvariant w) := by
  unfold SelInvariant; infer_instance

/-- One user-visible selection operation (§4.2). -/
inductive SelOp
  | byCount (n : ℕ)
  | byVariance (p : ℤ)
  | resolve
deriving DecidableEq, Repr

/-- Run one selection operation, keeping the resulting state. -/
def selStep (w : OWPCA) : SelOp → OWPCA
  | .byCount n => (w.setByCount n).1
  | .byVariance p => (w.setByVariance p).1
  | .resolve => w.nselected_components.1

/-- The GUI-enforced argument ranges: the components spin box runs from
`0` ("All") to the spectrum length, the variance spin box from 1 to
100 %. -/
def selOpOK (w : OWPCA) : SelOp → Prop
  | .byCount n => n ≤ spectrumLength w
  | .byVariance p => 1 ≤ p ∧ p ≤ 100
  | .resolve => True

instance (w : OWPCA) (op : SelOp) : Decidable (selOpOK w op) := by
  cases op <;> unfold selOpOK <;> infer_instance

/-- A widget event between two fits: a selection change or a commit. -/
inductive WOp
  | byCount (n : ℕ)
  | byVariance (p : ℤ)
  | commit
deriving DecidableEq, Repr

/-- Run one widget event, keeping the state. -/
def wstep (w : OWPCA) : WOp → OWPCA
  | .byCount n => (w.setByCount n).1
  | .byVariance p => (w.setByVariance p).1
  | .commit => w.commit.1

/-- Run a sequence of widget events. -/
def wrun (w : OWPCA) : List WOp → OWPCA
  | [] => w
  | op :: ops => wrun (wstep w op) ops

/-- The result of the external Decomposition Provider on the current data:
the float `explained_variance_ratio_` sequence, the loading matrix, the
original domain's attribute names, and the full transformed table produced
by the provider's apply-to-full-dataset path. -/
structure PCAResult where
  explained_variance_ratio_ : List FloatV
  components_ : List (List ℚ)
  orig_attrs : List String
  fullTransform : Table
deriving DecidableEq, Repr

/-- Extract the rationals of an all-finite float sequence.  The default `0`
is never used on installed spectra: the install guard checks the last
cumulative value is finite, which forces all of them to be
(`cumsumF_all_finite_of_last_finite`). -/
def ratsOf (l : List FloatV) : List ℚ :=
  l.map (fun x => match x with | .fin q => q | _ => 0)

/-- Source method `fit` (lines 144–172) for an in-memory table, with the
Decomposition Provider's answer passed in (`pca = self._pca_projector(data)`
is external, §6 of the spec; the normalization preprocessing handed to it
is provider plumbing).  Computes the cumulative sequence, installs the
projection when the last cumulative value is finite (the plot setup then
re-resolves the cut point via `_nselected_components`), raises the
trivial-components warning otherwise, and always ends in
`unconditional_commit`.  Returns the new state and the commit's outputs
(`none` when there was no data and no commit ran).  The empty spectrum,
on which the source's `cumulative[-1]` would raise, is treated as
non-finite (`getLastD .nan`); datasets reaching `fit` have ≥1 feature and
≥1 row, so it does not occur. -/
def OWPCA.fit (w : OWPCA) (pcaRes : PCAResult) : OWPCA × Option CommitOut :=
  let w := w.clear
  let w := { w with trivialWarning := false }
  match w.data with
  | none => (w, none)
  | some _ =>
    let cumulative := cumsumF pcaRes.explained_variance_ratio_
    let w :=
      if ((cumulative.getLastD .nan).isFinite : Bool) then
        let fd : Fitted :=
          { explained_variance_ratio_ := ratsOf pcaRes.explained_variance_ratio_
            cumulative := ratsOf cumulative
            components_ := pcaRes.components_
            orig_attrs := pcaRes.orig_attrs
            fullTransform := pcaRes.fullTransform }
        let w := { w with pca := some fd }
        -- _setup_plot: cutpos = self._nselected_components() mutates the
        -- selection state, then the plot cut point is drawn there.
        let (w, cutpos) := w.nselected_components
        { w with plotCut := cutpos }
      else
        { w with trivialWarning := true }
    let (w, out) := w.commit
    (w, some out)

/-- A persisted Python settings value: a `numbers.Real` (float semantics
abstracted by `FloatV`) or a non-numeric value. -/
inductive PyVal
  | num (x : FloatV)
  | str (s : String)
deriving DecidableEq, Repr

/-- A persisted settings dictionary (keys distinct, as in a Python dict). -/
abbrev SettingsDict := List (String × PyVal)

/-- Look up a key. -/
def findVal : SettingsDict → String → Option PyVal
  | [], _ => none
  | p :: ps, k => if p.1 = k then some p.2 else findVal ps k

/-- Python `settings[k] = v` on an existing key: replace the value in place. -/
def setKey : SettingsDict → String → PyVal → SettingsDict
  | [], _, _ => []
  | p :: ps, k, v => (if p.1 = k then (k, v) else p) :: setKey ps k v

/-- Python `settings.pop(k, None)`. -/
def popKey : SettingsDict → String → SettingsDict
  | [], _ => []
  | p :: ps, k => if p.1 = k then popKey ps k else p :: popKey ps k

/-- Python `value > 100` for a `numbers.Real` value (a non-numeric value
would raise `TypeError` there; theorems assume the stored `ncomponents`
is numeric). -/
def pyGtMax : PyVal → Bool
  | .num (.fin q) => decide ((100 : ℚ) < q)
  | .num .posInf => true
  | .num _ => false
  | .str _ => false

/-- Source method `migrate_settings`, lines 330–339: when `variance_covered` is
present and a `numbers.Real`, truncate it to an integer if finite and
reset it to 100 otherwise; any other value is left alone. -/
def migrateVC (m : SettingsDict) : SettingsDict :=
  match findVal m "variance_covered" with
  | some (PyVal.num (FloatV.fin q)) =>
    setKey m "variance_covered" (PyVal.num (FloatV.fin (pyInt q : ℚ)))
  | some (PyVal.num _) =>
    setKey m "variance_covered" (PyVal.num (FloatV.fin 100))
  | _ => m

/-- Source method `migrate_settings`, lines 340–341: clamp
`settings.get("ncomponents", 0)` to `MAX_COMPONENTS = 100` when it
exceeds it. -/
def migrateNC (m : SettingsDict) : SettingsDict :=
  if pyGtMax ((findVal m "ncomponents").getD (PyVal.num (FloatV.fin 0)))
  then setKey m "ncomponents" (PyVal.num (FloatV.fin 100))
  else m

/-- Source method `migrate_settings` (lines 328–349): the two value
repairs above followed by dropping the four deprecated keys. -/
def migrate_settings (m : SettingsDict) : SettingsDict :=
  popKey (popKey (popKey (popKey (migrateNC (migrateVC m))
    "decomposition_idx") "batch_size") "address") "auto_update"

/-- Spec-side definition: `resolveCount()` as the spec's §4.2 words describe it, for comparison
with the source's `OWPCA.nselected_components`: repair `variancePercent`
to `⌊cumulative[resolvedCount-1]·100⌋` exactly when the stored
`variancePercent` disagrees with THAT value; otherwise re-derive
`componentCount` by the lower-bound search. -/
def nselected_components_spec (w : OWPCA) : OWPCA × ℕ :=
  match w.pca with
  | none => (w, 0)
  | some fd =>
    let max_comp := if w.ncomponents = 0
      then fd.explained_variance_ratio_.length
      else w.ncomponents
    let var_max := fd.cumulative.getD (max_comp - 1) 0
    if w.variance_covered ≠ ⌊var_max * 100⌋ then
      ({ w with variance_covered := ⌊var_max * 100⌋ }, max_comp)
    else
      let cut := searchsorted fd.cumulative
        ((w.variance_covered : ℚ) / 100) + 1
      ({ w with ncomponents := cut }, cut)

/-! ## Basic lemmas -/

theorem searchsorted_le_length (a : List ℚ) (v : ℚ) :
    searchsorted a v ≤ a.length := by
  induction a with
  | nil => simp [searchsorted]
  | cons x xs ih =>
    simp only [searchsorted, List.length_cons]
    split
    · omega
    · omega

theorem searchsorted_lt (a : List ℚ) (v : ℚ) :
    ∀ i, i < searchsorted a v → a.getD i 0 < v := by
  induction a with
  | nil => intro i h; simp [searchsorted] at h
  | cons x xs ih =>
    intro i h
    by_cases hx : x < v
    · simp only [searchsorted, if_pos hx] at h
      cases i with
      | zero => simpa using hx
      | succ j => simpa using ih j (by omega)
    · simp [searchsorted, if_neg hx] at h

theorem le_getD_searchsorted (a : List ℚ) (v : ℚ)
    (h : searchsorted a v < a.length) : v ≤ a.getD (searchsorted a v) 0 := by
  induction a with
  | nil => simp [searchsorted] at h
  | cons x xs ih =>
    by_cases hx : x < v
    · simp only [searchsorted, if_pos hx] at h ⊢
      simpa using ih (by simpa using h)
    · simp only [searchsorted, if_neg hx]
      simpa using not_lt.mp hx

theorem searchsorted_le_of_ge (a : List ℚ) (v : ℚ) (j : ℕ)
    (hge : v ≤ a.getD j 0) : searchsorted a v ≤ j := by
  by_contra hlt
  exact absurd (searchsorted_lt a v j (by omega)) (not_lt.mpr hge)

theorem pyInt_of_nonneg (q : ℚ) (h : 0 ≤ q) : pyInt q = ⌊q⌋ := by
  simp [pyInt, h]

theorem pyInt_mul100_mem (q : ℚ) (h0 : 0 ≤ q) (h1 : q ≤ 1) :
    0 ≤ pyInt (q * 100) ∧ pyInt (q * 100) ≤ 100 := by
  rw [pyInt_of_nonneg _ (by positivity)]
  refine ⟨Int.floor_nonneg.mpr (by positivity), ?_⟩
  have h2 : q * 100 ≤ 100 := by nlinarith
  calc ⌊q * 100⌋ ≤ ⌊(100 : ℚ)⌋ := Int.floor_le_floor h2
  _ = 100 := by norm_num

theorem getD_mem_bounds (l : List ℚ) (hmem : ∀ x ∈ l, 0 ≤ x ∧ x ≤ 1)
    (i : ℕ) : 0 ≤ l.getD i 0 ∧ l.getD i 0 ≤ 1 := by
  induction l generalizing i with
  | nil => simp
  | cons x xs ih =>
    cases i with
    | zero => simpa using hmem x (by simp)
    | succ j => simpa using ih (fun y hy => hmem y (by simp [hy])) j

theorem addF_not_fin_left (a b : FloatV) (h : a.isFinite = false) :
    (a.add b).isFinite = false := by
  cases a <;> cases b <;> simp_all [FloatV.add, FloatV.isFinite]

theorem cumsumFrom_nonfin (l : List FloatV) :
    ∀ acc, acc.isFinite = false →
      ∀ x ∈ cumsumFrom acc l, x.isFinite = false := by
  induction l with
  | nil => simp [cumsumFrom]
  | cons y ys ih =>
    intro acc hacc x hx
    simp only [cumsumFrom, List.mem_cons] at hx
    have hacc' : (acc.add y).isFinite = false := addF_not_fin_left _ _ hacc
    rcases hx with rfl | hx
    · exact hacc'
    · exact ih _ hacc' x hx


theorem cumsumFrom_getLastD_nonfin_of_mem (l : List FloatV) :
    ∀ acc d, (∃ x ∈ cumsumFrom acc l, x.isFinite = false) →
      ((cumsumFrom acc l).getLastD d).isFinite = false := by
  induction l with
  | nil =>
    rintro acc d ⟨x, hx, -⟩
    simp [cumsumFrom] at hx
  | cons z zs ih =>
    rintro acc d ⟨x, hx, hxf⟩
    simp only [cumsumFrom, List.mem_cons] at hx
    simp only [cumsumFrom, List.getLastD_cons]
    rcases hx with rfl | hx
    · cases zs with
      | nil => simpa [cumsumFrom] using hxf
      | cons u us =>
        exact ih (acc.add z) _
          ⟨(acc.add z).add u, by simp [cumsumFrom],
            addF_not_fin_left _ _ hxf⟩
    · exact ih (acc.add z) _ ⟨x, hx, hxf⟩

/-- If the last value of `numpy.cumsum(ratio)` is finite — the guard under
which `OWPCA.fit` installs a projection — then every cumulative value is
finite.  This justifies holding installed spectra as plain rationals. -/
theorem cumsumF_all_finite_of_last_finite (l : List FloatV)
    (h : ((cumsumF l).getLastD FloatV.nan).isFinite = true) :
    ∀ x ∈ cumsumF l, x.isFinite = true := by
  intro x hx
  by_contra hxf
  have hxf' : x.isFinite = false := by simpa using hxf
  have hlast := cumsumFrom_getLastD_nonfin_of_mem l (FloatV.fin 0)
    FloatV.nan ⟨x, hx, hxf'⟩
  rw [cumsumF] at h
  rw [hlast] at h
  exact Bool.false_ne_true h

theorem findVal_setKey_self (m : SettingsDict) (k : String) (v : PyVal) :
    findVal (setKey m k v) k = (findVal m k).map (fun _ => v) := by
  induction m with
  | nil => simp [findVal, setKey]
  | cons p ps ih =>
    by_cases h : p.1 = k
    · simp [findVal, setKey, h]
    · simp [findVal, setKey, h, ih]

theorem findVal_setKey_ne (m : SettingsDict) (k k' : String) (v : PyVal)
    (h : k' ≠ k) : findVal (setKey m k v) k' = findVal m k' := by
  induction m with
  | nil => simp [findVal, setKey]
  | cons p ps ih =>
    by_cases hp : p.1 = k
    · simp [findVal, setKey, hp, Ne.symm h, ih]
    · by_cases hp' : p.1 = k'
      · simp [findVal, setKey, hp, hp', h]
      · simp [findVal, setKey, hp, hp', ih]

theorem findVal_popKey_self (m : SettingsDict) (k : String) :
    findVal (popKey m k) k = none := by
  induction m with
  | nil => simp [findVal, popKey]
  | cons p ps ih =>
    by_cases h : p.1 = k
    · simpa [popKey, h] using ih
    · simpa [popKey, findVal, h] using ih

theorem findVal_popKey_ne (m : SettingsDict) (k k' : String) (h : k' ≠ k) :
    findVal (popKey m k) k' = findVal m k' := by
  induction m with
  | nil => simp [findVal, popKey]
  | cons p ps ih =>
    by_cases hp : p.1 = k
    · simp [popKey, findVal, hp, Ne.symm h, ih]
    · by_cases hp' : p.1 = k'
      · simp [popKey, findVal, hp, hp', h]
      · simp [popKey, findVal, hp, hp', ih]

/-! ## Frame lemmas: which fields each operation can touch -/

theorem setByCount_frame (w : OWPCA) (n : ℕ) :
    (w.setByCount n).1.pca = w.pca ∧
    (w.setByCount n).1.transformed = w.transformed ∧
    (w.setByCount n).1.applyCount = w.applyCount ∧
    (w.setByCount n).1.data = w.data := by
  cases h : w.pca <;>
    simp [OWPCA.setByCount, OWPCA.update_selection_component_spin, h]

theorem setByVariance_frame (w : OWPCA) (p : ℤ) :
    (w.setByVariance p).1.pca = w.pca ∧
    (w.setByVariance p).1.transformed = w.transformed ∧
    (w.setByVariance p).1.applyCount = w.applyCount ∧
    (w.setByVariance p).1.data = w.data := by
  cases h : w.pca <;>
    simp [OWPCA.setByVariance, OWPCA.update_selection_variance_spin, h]

theorem nselected_components_frame (w : OWPCA) :
    w.nselected_components.1.pca = w.pca ∧
    w.nselected_components.1.transformed = w.transformed ∧
    w.nselected_components.1.applyCount = w.applyCount ∧
    w.nselected_components.1.data = w.data := by
  cases h : w.pca with
  | none => simp [OWPCA.nselected_components, h]
  | some fd =>
    simp only [OWPCA.nselected_components, h]
    split <;> split <;> simp

theorem commit_step (w : OWPCA) :
    ((w.commit.1.transformed = w.transformed ∧
      w.commit.1.applyCount = w.applyCount) ∨
     (w.transformed = none ∧ w.commit.1.transformed.isSome = true ∧
      w.commit.1.applyCount = w.applyCount + 1)) := by
  cases h : w.pca with
  | none => exact Or.inl (by simp [OWPCA.commit, h])
  | some fd =>
    cases ht : w.transformed with
    | none => exact Or.inr (by simp [OWPCA.commit, h, ht])
    | some t => exact Or.inl (by simp [OWPCA.commit, h, ht])

theorem wstep_measure (w : OWPCA) (op : WOp) :
    (wstep w op).applyCount +
        (if (wstep w op).transformed.isSome then 0 else 1)
      ≤ w.applyCount + (if w.transformed.isSome then 0 else 1) := by
  cases op with
  | byCount n =>
    obtain ⟨-, h2, h3, -⟩ := setByCount_frame w n
    simp [wstep, h2, h3]
  | byVariance p =>
    obtain ⟨-, h2, h3, -⟩ := setByVariance_frame w p
    simp [wstep, h2, h3]
  | commit =>
    rcases commit_step w with ⟨h1, h2⟩ | ⟨h1, h2, h3⟩ <;>
      simp [wstep, h1, h2, *]

theorem wrun_measure (ops : List WOp) : ∀ w : OWPCA,
    (wrun w ops).applyCount +
        (if (wrun w ops).transformed.isSome then 0 else 1)
      ≤ w.applyCount + (if w.transformed.isSome then 0 else 1) := by
  induction ops with
  | nil => intro w; simp [wrun]
  | cons op ops ih =>
    intro w
    simp only [wrun]
    exact le_trans (ih (wstep w op)) (wstep_measure w op)

theorem wstep_cache_stable (w : OWPCA) (op : WOp) (t : Table)
    (h : w.transformed = some t) :
    (wstep w op).transformed = some t ∧
    (wstep w op).applyCount = w.applyCount := by
  cases op with
  | byCount n =>
    obtain ⟨-, h2, h3, -⟩ := setByCount_frame w n
    exact ⟨h2.trans h, h3⟩
  | byVariance p =>
    obtain ⟨-, h2, h3, -⟩ := setByVariance_frame w p
    exact ⟨h2.trans h, h3⟩
  | commit =>
    rcases commit_step w with ⟨h1, h2⟩ | ⟨h1, -, -⟩
    · exact ⟨h1.trans h, h2⟩
    · rw [h] at h1; exact absurd h1 (by simp)

theorem wrun_cache_stable (ops : List WOp) : ∀ (w : OWPCA) (t : Table),
    w.transformed = some t →
      (wrun w ops).transformed = some t ∧
      (wrun w ops).applyCount = w.applyCount := by
  induction ops with
  | nil => intro w t h; exact ⟨h, rfl⟩
  | cons op ops ih =>
    intro w t h
    obtain ⟨h1, h2⟩ := wstep_cache_stable w op t h
    obtain ⟨h3, h4⟩ := ih (wstep w op) t h1
    exact ⟨h3, h4.trans h2⟩

/-- The sentinel-resolved count (spec glossary): `componentCount`, or the
spectrum length when it is the `0` "All" sentinel. -/
def resolvedCount (w : OWPCA) (fd : Fitted) : ℕ :=
  if w.ncomponents = 0 then fd.explained_variance_ratio_.length
  else w.ncomponents

/-! ## Claim theorems -/

/-- Claim C9: with no fitted projection installed, `setByVariance(p)` only
stores the spin value `p` and returns without touching `componentCount`,
without setting a cut point and without triggering a commit, while
`setByCount(n)` under the same condition still triggers a commit whose
data outputs are null (the projector is still emitted). -/
theorem setByVariance_noop_without_fit (w : OWPCA) (p : ℤ) (n : ℕ)
    (h : w.pca = none) :
    (w.setByVariance p).1 = { w with variance_covered := p } ∧
    (w.setByVariance p).1.ncomponents = w.ncomponents ∧
    (w.setByVariance p).1.plotCut = w.plotCut ∧
    (w.setByVariance p).2 = false ∧
    (w.setByCount n).2 = true ∧
    ((w.setByCount n).1.commit).2.transformed_data = none ∧
    ((w.setByCount n).1.commit).2.components = none := by
  have h1 : (w.setByCount n).1.pca = none := (setByCount_frame w n).1.trans h
  refine ⟨?_, ?_, ?_, ?_, ?_, ?_, ?_⟩ <;>
    simp [OWPCA.setByVariance, OWPCA.update_selection_variance_spin,
      OWPCA.setByCount, OWPCA.update_selection_component_spin,
      OWPCA.commit, h, h1]

def wC9 : OWPCA := ⟨some ⟨["a"], [[1]], [], [], []⟩, 2, 50,
  none, none, 0, 0, false, 0⟩

theorem setByVariance_noop_without_fit_witness :
    (wC9.setByVariance 30).1 = { wC9 with variance_covered := 30 } ∧
    (wC9.setByVariance 30).1.ncomponents = wC9.ncomponents ∧
    (wC9.setByVariance 30).1.plotCut = wC9.plotCut ∧
    (wC9.setByVariance 30).2 = false ∧
    (wC9.setByCount 3).2 = true ∧
    ((wC9.setByCount 3).1.commit).2.transformed_data = none ∧
    ((wC9.setByCount 3).1.commit).2.components = none :=
  setByVariance_noop_without_fit wC9 30 3 rfl

/-- Claim C6 (amended): with a fitted spectrum installed, calling
`setByCount(n)` a second time with the same `n` produces a state identical
to the state after the first call; however the second call, like every
call of the components-spin callback, still triggers a re-commit — the
trigger is unconditional, not gated on the resolved count changing. -/
theorem setByCount_idempotent_state (w : OWPCA) (fd : Fitted) (n : ℕ)
    (hpca : w.pca = some fd) :
    ((w.setByCount n).1.setByCount n).1 = (w.setByCount n).1 ∧
    ((w.setByCount n).1.setByCount n).2 = true := by
  obtain ⟨d, nc, vc, pca, tr, pc, plc, tw, ac⟩ := w
  simp only [OWPCA.pca] at hpca
  subst hpca
  simp [OWPCA.setByCount, OWPCA.update_selection_component_spin]

def tblC6 : Table := ⟨["PC1", "PC2"], [[1, 0], [0, 1]], [], [], []⟩

def fdC6 : Fitted := ⟨[1/2, 1/2], [1/2, 1], [[1, 0], [0, 1]],
  ["a", "b"], tblC6⟩

def wC6 : OWPCA := ⟨none, 1, 50, some fdC6, none, 0, 0, false, 0⟩

theorem setByCount_idempotent_state_witness :
    ((wC6.setByCount 2).1.setByCount 2).1 = (wC6.setByCount 2).1 ∧
    ((wC6.setByCount 2).1.setByCount 2).2 = true :=
  setByCount_idempotent_state wC6 fdC6 2 rfl

def wC6cex : OWPCA := ⟨none, 1, 50,
  some ⟨[6/10, 4/10], [6/10, 1], [[1, 0], [0, 1]], ["a", "b"],
    ⟨["PC1", "PC2"], [[1, 0]], [], [], []⟩⟩,
  none, 0, 0, false, 0⟩

/-- Claim C6 counterexample: calling `setByCount(2)` twice on the same
2-component spectrum leaves the resolved count and the whole selection
state unchanged at the second call, yet the second call still returns the
re-commit trigger `true` — refuting "does not trigger a second output
re-commit (a re-commit is triggered only when the resolved count differs
from the previously resolved count)". -/
theorem setByCount_recommit_cex :
    ((wC6cex.setByCount 2).1.setByCount 2).1 = (wC6cex.setByCount 2).1 ∧
    (wC6cex.setByCount 2).1.ncomponents =
      ((wC6cex.setByCount 2).1.setByCount 2).1.ncomponents ∧
    ((wC6cex.setByCount 2).1.setByCount 2).2 = true := ⟨rfl, rfl, rfl⟩

/-- Claim C5: `setByCount(0)` (the "All" sentinel) on an installed spectrum
of length `L` resolves the cut to `L` (the plot cut point is set to `L`)
and stores `variancePercent = ⌊cumulative[L-1]·100⌋`.  The statement is
parametric in the installed projection `fd`, so it equally covers the
refit scenario: after a refit shrank the spectrum, the same sentinel
selection resolves to the new, smaller length. -/
theorem setByCount_sentinel (w : OWPCA) (fd : Fitted)
    (hpca : w.pca = some fd)
    (_hL : 1 ≤ fd.explained_variance_ratio_.length)
    (hnn : 0 ≤ fd.cumulative.getD
      (fd.explained_variance_ratio_.length - 1) 0) :
    (w.setByCount 0).1.plotCut = fd.explained_variance_ratio_.length ∧
    (w.setByCount 0).1.variance_covered =
      ⌊fd.cumulative.getD (fd.explained_variance_ratio_.length - 1) 0
        * 100⌋ ∧
    (w.setByCount 0).1.ncomponents = 0 ∧
    (w.setByCount 0).2 = true := by
  have key : pyInt (fd.cumulative.getD
      (fd.explained_variance_ratio_.length - 1) 0 * 100) =
      ⌊fd.cumulative.getD (fd.explained_variance_ratio_.length - 1) 0
        * 100⌋ :=
    pyInt_of_nonneg _ (mul_nonneg hnn (by norm_num))
  simp only [List.getD_eq_getElem?_getD] at key
  simp [OWPCA.setByCount, OWPCA.update_selection_component_spin, hpca, key]

def fdC5 : Fitted := ⟨[3/5, 3/10, 1/10], [3/5, 9/10, 1],
  [[1, 0, 0], [0, 1, 0], [0, 0, 1]], ["a", "b", "c"],
  ⟨["PC1", "PC2", "PC3"], [[1, 2, 3]], [], [], []⟩⟩

def wC5 : OWPCA := ⟨none, 8, 90, some fdC5, none, 0, 0, false, 0⟩

theorem setByCount_sentinel_witness :
    (wC5.setByCount 0).1.plotCut = fdC5.explained_variance_ratio_.length ∧
    (wC5.setByCount 0).1.variance_covered =
      ⌊fdC5.cumulative.getD (fdC5.explained_variance_ratio_.length - 1) 0
        * 100⌋ ∧
    (wC5.setByCount 0).1.ncomponents = 0 ∧
    (wC5.setByCount 0).2 = true :=
  setByCount_sentinel wC5 fdC5 rfl (by decide) (by norm_num [fdC5])

/-- Claim C8: when the cumulative variance sequence ends in a non-finite
value, `fit` raises the trivial-components warning, installs no new
projection (projection, variance ratios and cumulative sequence — bundled
in the `pca` field — stay cleared, as does the transform cache), and the
commit it runs emits null transformed data and null loadings while still
emitting the projector (carrying the unchanged component setting). -/
theorem fit_nonfinite_outputs (w : OWPCA) (d : Table) (pcaRes : PCAResult)
    (hdata : w.data = some d)
    (hfin : ((cumsumF pcaRes.explained_variance_ratio_).getLastD
      FloatV.nan).isFinite = false) :
    (w.fit pcaRes).1.trivialWarning = true ∧
    (w.fit pcaRes).1.pca = none ∧
    (w.fit pcaRes).1.transformed = none ∧
    (w.fit pcaRes).2 = some ⟨none, none, w.ncomponents⟩ := by
  rw [List.getLastD_eq_getLast?] at hfin
  simp [OWPCA.fit, OWPCA.clear, OWPCA.commit, hdata, hfin]

def wC8 : OWPCA := ⟨some ⟨["a"], [[1], [1]], [], [], []⟩, 2, 100,
  none, none, 0, 0, false, 0⟩

def pcaResC8 : PCAResult := ⟨[FloatV.nan, FloatV.nan], [[1], [0]],
  ["a"], ⟨["PC1", "PC2"], [[0, 0], [0, 0]], [], [], []⟩⟩

theorem fit_nonfinite_outputs_witness :
    (wC8.fit pcaResC8).1.trivialWarning = true ∧
    (wC8.fit pcaResC8).1.pca = none ∧
    (wC8.fit pcaResC8).1.transformed = none ∧
    (wC8.fit pcaResC8).2 = some ⟨none, none, wC8.ncomponents⟩ :=
  fit_nonfinite_outputs wC8 ⟨["a"], [[1], [1]], [], [], []⟩ pcaResC8
    rfl (by decide)

/-- Claim C4: with a non-decreasing installed cumulative spectrum,
`setByVariance(p)` sets `componentCount` to the smallest count `c` with
`cumulative[c-1] ≥ p/100` — every smaller count falls short, and either
the chosen count reaches the target, or no cumulative value does and the
count is clamped to exactly the spectrum length — and the result is never
the `0` "All" sentinel. -/
theorem setByVariance_lower_bound (w : OWPCA) (fd : Fitted) (p : ℤ)
    (hpca : w.pca = some fd) (hlen : 1 ≤ fd.cumulative.length)
    (_hp : 1 ≤ p ∧ p ≤ 100)
    (_hsort : fd.cumulative.Sorted (· ≤ ·)) :
    1 ≤ (w.setByVariance p).1.ncomponents ∧
    (w.setByVariance p).1.ncomponents ≤ fd.cumulative.length ∧
    (∀ c : ℕ, 1 ≤ c → c < (w.setByVariance p).1.ncomponents →
      fd.cumulative.getD (c - 1) 0 < (p : ℚ) / 100) ∧
    ((p : ℚ) / 100 ≤
        fd.cumulative.getD ((w.setByVariance p).1.ncomponents - 1) 0 ∨
      ((∀ i < fd.cumulative.length,
          fd.cumulative.getD i 0 < (p : ℚ) / 100) ∧
        (w.setByVariance p).1.ncomponents = fd.cumulative.length)) := by
  have hnc : (w.setByVariance p).1.ncomponents =
      min (searchsorted fd.cumulative ((p : ℚ) / 100) + 1)
        fd.cumulative.length := by
    simp [OWPCA.setByVariance, OWPCA.update_selection_variance_spin, hpca]
  have hsle : searchsorted fd.cumulative ((p : ℚ) / 100) ≤
      fd.cumulative.length := searchsorted_le_length _ _
  rw [hnc]
  refine ⟨by omega, by omega, ?_, ?_⟩
  · intro c hc1 hc2
    exact searchsorted_lt _ _ (c - 1) (by omega)
  · by_cases hcase : searchsorted fd.cumulative ((p : ℚ) / 100) <
        fd.cumulative.length
    · left
      have hmin : min (searchsorted fd.cumulative ((p : ℚ) / 100) + 1)
          fd.cumulative.length =
          searchsorted fd.cumulative ((p : ℚ) / 100) + 1 := by omega
      rw [hmin]
      simpa using le_getD_searchsorted _ _ hcase
    · right
      constructor
      · intro i hi
        exact searchsorted_lt _ _ i (by omega)
      · omega

def fdC4 : Fitted := ⟨[3/5, 3/10, 2/25, 1/50], [3/5, 9/10, 49/50, 1],
  [[1, 0], [0, 1], [0, 0], [0, 0]], ["a", "b"],
  ⟨["PC1", "PC2", "PC3", "PC4"], [[1, 2, 3, 4]], [], [], []⟩⟩

def wC4 : OWPCA := ⟨none, 2, 95, some fdC4, none, 0, 0, false, 0⟩

def fdC4b : Fitted := ⟨[3/5, 3/10], [3/5, 9/10], [[1, 0], [0, 1]],
  ["a", "b"], ⟨["PC1", "PC2"], [[1, 2]], [], [], []⟩⟩

def wC4b : OWPCA := ⟨none, 1, 60, some fdC4b, none, 0, 0, false, 0⟩

theorem setByVariance_lower_bound_witness :
    (1 ≤ (wC4.setByVariance 95).1.ncomponents ∧
      (wC4.setByVariance 95).1.ncomponents ≤ fdC4.cumulative.length ∧
      (∀ c : ℕ, 1 ≤ c → c < (wC4.setByVariance 95).1.ncomponents →
        fdC4.cumulative.getD (c - 1) 0 < (95 : ℚ) / 100) ∧
      ((95 : ℚ) / 100 ≤
          fdC4.cumulative.getD
            ((wC4.setByVariance 95).1.ncomponents - 1) 0 ∨
        ((∀ i < fdC4.cumulative.length,
            fdC4.cumulative.getD i 0 < (95 : ℚ) / 100) ∧
          (wC4.setByVariance 95).1.ncomponents =
            fdC4.cumulative.length))) ∧
    (1 ≤ (wC4b.setByVariance 95).1.ncomponents ∧
      (wC4b.setByVariance 95).1.ncomponents ≤ fdC4b.cumulative.length ∧
      (∀ c : ℕ, 1 ≤ c → c < (wC4b.setByVariance 95).1.ncomponents →
        fdC4b.cumulative.getD (c - 1) 0 < (95 : ℚ) / 100) ∧
      ((95 : ℚ) / 100 ≤
          fdC4b.cumulative.getD
            ((wC4b.setByVariance 95).1.ncomponents - 1) 0 ∨
        ((∀ i < fdC4b.cumulative.length,
            fdC4b.cumulative.getD i 0 < (95 : ℚ) / 100) ∧
          (wC4b.setByVariance 95).1.ncomponents =
            fdC4b.cumulative.length))) :=
  ⟨setByVariance_lower_bound wC4 fdC4 95 rfl (by decide)
      (by norm_num) (by norm_num [fdC4, List.Sorted]),
    setByVariance_lower_bound wC4b fdC4b 95 rfl (by decide)
      (by norm_num) (by norm_num [fdC4b, List.Sorted])⟩

/-! ## Characterizations of the selection operations on installed states -/

theorem setByCount_eq (w : OWPCA) (fd : Fitted)
    (hpca : w.pca = some fd) (n : ℕ) :
    w.setByCount n =
      ({ w with
          ncomponents := n
          variance_covered := pyInt (fd.cumulative.getD
            ((if n = 0 then fd.explained_variance_ratio_.length else n)
              - 1) 0 * 100)
          plotCut := if n = 0 then fd.explained_variance_ratio_.length
            else n },
        true) := by
  obtain ⟨d, nc, vc, pca, tr, pc, plc, tw, ac⟩ := w
  simp only [OWPCA.pca] at hpca
  subst hpca
  rfl

theorem setByVariance_eq (w : OWPCA) (fd : Fitted)
    (hpca : w.pca = some fd) (p : ℤ) :
    w.setByVariance p =
      ({ w with
          variance_covered := p
          ncomponents := min
            (searchsorted fd.cumulative ((p : ℚ) / 100) + 1)
            fd.cumulative.length
          plotCut := min
            (searchsorted fd.cumulative ((p : ℚ) / 100) + 1)
            fd.cumulative.length },
        true) := by
  obtain ⟨d, nc, vc, pca, tr, pc, plc, tw, ac⟩ := w
  simp only [OWPCA.pca] at hpca
  subst hpca
  rfl

theorem nselected_components_eq (w : OWPCA) (fd : Fitted)
    (hpca : w.pca = some fd) :
    w.nselected_components =
      if fd.cumulative.getD (resolvedCount w fd - 1) 0 ≠
          ((⌊(w.variance_covered : ℚ) / 100⌋ : ℤ) : ℚ) then
        ({ w with
            variance_covered :=
              pyInt (fd.cumulative.getD (resolvedCount w fd - 1) 0 * 100) },
          resolvedCount w fd)
      else
        ({ w with
            ncomponents :=
              searchsorted fd.cumulative ((w.variance_covered : ℚ) / 100)
                + 1 },
          searchsorted fd.cumulative ((w.variance_covered : ℚ) / 100) + 1)
      := by
  obtain ⟨d, nc, vc, pca, tr, pc, plc, tw, ac⟩ := w
  simp only [OWPCA.pca] at hpca
  subst hpca
  rfl

def fdC2 : Fitted := ⟨[701/1000, 1/125, 291/1000],
  [701/1000, 709/1000, 1], [[1], [0], [0]], ["a"],
  ⟨["PC1", "PC2", "PC3"], [[1, 0, 0]], [], [], []⟩⟩

def wC2 : OWPCA := ⟨none, 2, 70, some fdC2, none, 0, 0, false, 0⟩

/-- Claim C2 counterexample: on the installed cumulative spectrum
`[0.701, 0.709, 1]` with `componentCount = 2` and `variancePercent = 70`,
the stored percentage agrees with `⌊cumulative[1]·100⌋ = 70`, so the
claim's described operation takes the re-derive branch and returns count 1
(setting `componentCount := 1`); the source instead compares
`cumulative[1] = 0.709` against `⌊70/100⌋ = 0`, takes the repair branch,
and returns count 2 leaving `componentCount = 2`. -/
theorem nselected_components_cex :
    wC2.nselected_components.2 = 2 ∧
    wC2.nselected_components.1.ncomponents = 2 ∧
    wC2.nselected_components.1.variance_covered = 70 ∧
    (nselected_components_spec wC2).2 = 1 ∧
    (nselected_components_spec wC2).1.ncomponents = 1 ∧
    wC2.variance_covered =
      ⌊fdC2.cumulative.getD (resolvedCount wC2 fdC2 - 1) 0 * 100⌋ := by
  refine ⟨?_, ?_, ?_, ?_, ?_, ?_⟩ <;>
    norm_num [wC2, fdC2, OWPCA.nselected_components,
      nselected_components_spec, resolvedCount, searchsorted, pyInt]

/-- Claim C2 (amended): with a fitted spectrum, `resolveCount` re-derives
the resolved count `rc` from `componentCount` (resolving the `0` sentinel
to the spectrum length) and repairs `variancePercent` to
`⌊cumulative[rc-1]·100⌋` exactly when `cumulative[rc-1]` differs from the
real number `⌊variancePercent/100⌋` (which is 0 for percentages below 100
and 1 at 100) — not when the stored percentage disagrees with the
count-derived percentage; otherwise it re-derives `componentCount` as the
smallest count whose cumulative value reaches `variancePercent/100`
(unclamped) and returns the resulting count. -/
theorem nselected_components_amended (w : OWPCA) (fd : Fitted)
    (hpca : w.pca = some fd)
    (hmem : ∀ x ∈ fd.cumulative, 0 ≤ x ∧ x ≤ 1) :
    (fd.cumulative.getD (resolvedCount w fd - 1) 0 ≠
        ((⌊(w.variance_covered : ℚ) / 100⌋ : ℤ) : ℚ) →
      w.nselected_components.2 = resolvedCount w fd ∧
      w.nselected_components.1.variance_covered =
        ⌊fd.cumulative.getD (resolvedCount w fd - 1) 0 * 100⌋ ∧
      w.nselected_components.1.ncomponents = w.ncomponents) ∧
    (fd.cumulative.getD (resolvedCount w fd - 1) 0 =
        ((⌊(w.variance_covered : ℚ) / 100⌋ : ℤ) : ℚ) →
      w.nselected_components.1.variance_covered = w.variance_covered ∧
      w.nselected_components.1.ncomponents = w.nselected_components.2 ∧
      (∀ c : ℕ, 1 ≤ c → c < w.nselected_components.2 →
        fd.cumulative.getD (c - 1) 0 < (w.variance_covered : ℚ) / 100) ∧
      (w.nselected_components.2 ≤ fd.cumulative.length →
        (w.variance_covered : ℚ) / 100 ≤
          fd.cumulative.getD (w.nselected_components.2 - 1) 0)) := by
  have key : pyInt (fd.cumulative.getD (resolvedCount w fd - 1) 0 * 100) =
      ⌊fd.cumulative.getD (resolvedCount w fd - 1) 0 * 100⌋ :=
    pyInt_of_nonneg _ (mul_nonneg
      (getD_mem_bounds fd.cumulative hmem _).1 (by norm_num))
  rw [nselected_components_eq w fd hpca]
  constructor
  · intro hne
    rw [if_pos hne]
    exact ⟨rfl, key, rfl⟩
  · intro heq
    rw [if_neg (not_not_intro heq)]
    refine ⟨rfl, rfl, ?_, ?_⟩
    · intro c hc1 hc2
      exact searchsorted_lt _ _ (c - 1) (by omega)
    · intro hle
      have hlt : searchsorted fd.cumulative
          ((w.variance_covered : ℚ) / 100) < fd.cumulative.length := by
        omega
      simpa using le_getD_searchsorted _ _ hlt

theorem nselected_components_amended_witness :
    (fdC2.cumulative.getD (resolvedCount wC2 fdC2 - 1) 0 ≠
        ((⌊(wC2.variance_covered : ℚ) / 100⌋ : ℤ) : ℚ) →
      wC2.nselected_components.2 = resolvedCount wC2 fdC2 ∧
      wC2.nselected_components.1.variance_covered =
        ⌊fdC2.cumulative.getD (resolvedCount wC2 fdC2 - 1) 0 * 100⌋ ∧
      wC2.nselected_components.1.ncomponents = wC2.ncomponents) ∧
    (fdC2.cumulative.getD (resolvedCount wC2 fdC2 - 1) 0 =
        ((⌊(wC2.variance_covered : ℚ) / 100⌋ : ℤ) : ℚ) →
      wC2.nselected_components.1.variance_covered = wC2.variance_covered ∧
      wC2.nselected_components.1.ncomponents =
        wC2.nselected_components.2 ∧
      (∀ c : ℕ, 1 ≤ c → c < wC2.nselected_components.2 →
        fdC2.cumulative.getD (c - 1) 0 <
          (wC2.variance_covered : ℚ) / 100) ∧
      (wC2.nselected_components.2 ≤ fdC2.cumulative.length →
        (wC2.variance_covered : ℚ) / 100 ≤
          fdC2.cumulative.getD (wC2.nselected_components.2 - 1) 0)) :=
  nselected_components_amended wC2 fdC2 rfl (by norm_num [fdC2])

def fdC1 : Fitted := ⟨[1/2, 1/2], [1/2, 1], [[1, 0], [0, 1]], ["a", "b"],
  ⟨["PC1", "PC2"], [[1, 2], [3, 4]], ["c"], ["m"], [["r1"], ["r2"]]⟩⟩

def dataC1 : Table :=
  ⟨["a", "b"], [[5, 6], [7, 8]], ["c"], ["m"], [["r1"], ["r2"]]⟩

def wC1 : OWPCA := ⟨some dataC1, 0, 100, some fdC1, none, 0, 0, false, 0⟩

/-- Claim C1 counterexample: committing under the `0` "All" sentinel with a
2-component fitted spectrum.  The claim calls for the first
`resolvedCount = 2` transformed feature columns and 2 loadings rows; the
source slices with the raw stored `ncomponents = 0` and emits a
transformed table with **no** feature columns and a loadings table with
**no** rows. -/
theorem commit_sentinel_cex :
    wC1.ncomponents = 0 ∧
    resolvedCount wC1 fdC1 = 2 ∧
    wC1.commit.2.transformed_data.map Table.attrs = some [] ∧
    wC1.commit.2.components.map Table.X = some [] ∧
    wC1.commit.2.transformed_data.map Table.attrs ≠
      some (fdC1.fullTransform.attrs.take (resolvedCount wC1 fdC1)) := by
  refine ⟨rfl, rfl, ?_, ?_, ?_⟩ <;>
    simp [wC1, fdC1, dataC1, OWPCA.commit, resolvedCount]

/-- Claim C1 (amended): for every commit with a fitted projection present
(and the transform cache empty or holding this projection's full
transform), the transformed table consists of the first `componentCount`
— the raw stored value, the `0` sentinel NOT being resolved to the
spectrum length, so that "All" yields zero feature columns — transformed
feature columns, plus the original class and meta columns unchanged and
the original row count; the loadings table has `componentCount` rows
(the first `componentCount` loading vectors) labelled
`PC1..PC<componentCount>`, one column per original feature; the projector
is emitted carrying `componentCount`. -/
theorem commit_output_shape (w : OWPCA) (fd : Fitted) (data : Table)
    (hpca : w.pca = some fd)
    (hdata : w.data = some data)
    (hcache : w.transformed = none ∨ w.transformed = some fd.fullTransform)
    (hrows : fd.fullTransform.X.length = data.X.length)
    (hmeta : fd.fullTransform.metaVals = data.metaVals)
    (hcomp : w.ncomponents ≤ fd.components_.length) :
    ∃ t c, w.commit.2.transformed_data = some t ∧
      w.commit.2.components = some c ∧
      t.attrs = fd.fullTransform.attrs.take w.ncomponents ∧
      t.class_vars = data.class_vars ∧
      t.metas = data.metas ∧
      t.metaVals = data.metaVals ∧
      t.X.length = data.X.length ∧
      c.attrs = fd.orig_attrs ∧
      c.X = fd.components_.take w.ncomponents ∧
      c.X.length = w.ncomponents ∧
      c.metas = ["component"] ∧
      c.metaVals = (List.range w.ncomponents).map
        (fun i => ["PC" ++ toString (i + 1)]) ∧
      w.commit.2.pca = w.ncomponents := by
  have hlen : (fd.components_.take w.ncomponents).length =
      w.ncomponents := by
    rw [List.length_take]
    omega
  rcases hcache with hc | hc <;>
    simp only [OWPCA.commit, hpca, hc, hdata, Option.getD_some] <;>
    refine ⟨_, _, rfl, rfl, ?_, ?_, ?_, ?_, ?_, ?_, ?_, ?_, ?_, ?_, ?_⟩ <;>
    first
      | rfl
      | exact hmeta
      | exact hlen
      | simp [hrows]

def wC1w : OWPCA := ⟨some dataC1, 1, 50, some fdC1, none, 0, 0, false, 0⟩

theorem commit_output_shape_witness :
    ∃ t c, wC1w.commit.2.transformed_data = some t ∧
      wC1w.commit.2.components = some c ∧
      t.attrs = fdC1.fullTransform.attrs.take wC1w.ncomponents ∧
      t.class_vars = dataC1.class_vars ∧
      t.metas = dataC1.metas ∧
      t.metaVals = dataC1.metaVals ∧
      t.X.length = dataC1.X.length ∧
      c.attrs = fdC1.orig_attrs ∧
      c.X = fdC1.components_.take wC1w.ncomponents ∧
      c.X.length = wC1w.ncomponents ∧
      c.metas = ["component"] ∧
      c.metaVals = (List.range wC1w.ncomponents).map
        (fun i => ["PC" ++ toString (i + 1)]) ∧
      wC1w.commit.2.pca = wC1w.ncomponents :=
  commit_output_shape wC1w fdC1 dataC1 rfl rfl (Or.inl rfl) rfl rfl
    (by decide)

/-- Claim C7: between two fits (events: selection changes and commits),
starting from a state whose full-transform cache is empty — exactly how
`fit` leaves a fresh `FittedProjection` — the provider's
apply-to-full-dataset path (`self._pca(self.data)`, counted by
`applyCount`) runs at most once over any sequence of events; and once the
cache holds a transform it never changes and the apply path never runs
again — every further commit only slices the cached table's columns. -/
theorem full_transform_computed_once (w : OWPCA) (ops : List WOp) :
    (w.transformed = none →
      (wrun w ops).applyCount ≤ w.applyCount + 1) ∧
    (∀ t, w.transformed = some t →
      (wrun w ops).transformed = some t ∧
      (wrun w ops).applyCount = w.applyCount) := by
  constructor
  · intro h
    have hm := wrun_measure ops w
    rw [h] at hm
    cases hs : (wrun w ops).transformed.isSome <;>
      simp [hs] at hm <;> omega
  · intro t ht
    exact wrun_cache_stable ops w t ht

def tblC7 : Table := ⟨["PC1", "PC2"], [[1, 2], [3, 4]], [], [], []⟩

def fdC7 : Fitted := ⟨[7/10, 3/10], [7/10, 1], [[1, 0], [0, 1]],
  ["a", "b"], tblC7⟩

def wC7 : OWPCA := ⟨some ⟨["a", "b"], [[1, 1], [2, 2]], [], [], []⟩,
  2, 100, some fdC7, none, 0, 0, false, 0⟩

def opsC7 : List WOp := [WOp.commit, WOp.byCount 1, WOp.commit,
  WOp.byVariance 80, WOp.commit, WOp.byCount 2, WOp.commit]

def wC7b : OWPCA := ⟨some ⟨["a", "b"], [[1, 1], [2, 2]], [], [], []⟩,
  2, 100, some fdC7, some tblC7, 0, 0, false, 1⟩

theorem full_transform_computed_once_witness :
    (wrun wC7 opsC7).applyCount ≤ wC7.applyCount + 1 ∧
    (wrun wC7b opsC7).transformed = some tblC7 ∧
    (wrun wC7b opsC7).applyCount = wC7b.applyCount :=
  ⟨(full_transform_computed_once wC7 opsC7).1 rfl,
   (full_transform_computed_once wC7b opsC7).2 tblC7 rfl⟩

theorem migrateVC_ne (m : SettingsDict) (k : String)
    (h : k ≠ "variance_covered") :
    findVal (migrateVC m) k = findVal m k := by
  unfold migrateVC
  rcases hvc : findVal m "variance_covered" with - | v
  · rfl
  · rcases v with x | s
    · rcases x with q | - | - | - <;>
        simp [findVal_setKey_ne _ _ _ _ h]
    · rfl

theorem migrateNC_ne (m : SettingsDict) (k : String)
    (h : k ≠ "ncomponents") :
    findVal (migrateNC m) k = findVal m k := by
  unfold migrateNC
  split
  · exact findVal_setKey_ne _ _ _ _ h
  · rfl

/-- Claim C10: `migrate_settings` rewrites `variance_covered` only when its
value is a real number — truncating finite values to an integer,
replacing non-finite values by 100 — and leaves a non-numeric
`variance_covered` (and an absent one) unchanged; it rewrites
`ncomponents` to 100 exactly when the key is present and its (real) value
exceeds 100 (an absent key defaults to 0 and is never clamped); it
removes `decomposition_idx`, `batch_size`, `address` and `auto_update`;
and it alters no other entry. -/
theorem migrate_settings_spec (m : SettingsDict) :
    (∀ k, k ∉ ["variance_covered", "ncomponents", "decomposition_idx",
        "batch_size", "address", "auto_update"] →
      findVal (migrate_settings m) k = findVal m k) ∧
    findVal (migrate_settings m) "decomposition_idx" = none ∧
    findVal (migrate_settings m) "batch_size" = none ∧
    findVal (migrate_settings m) "address" = none ∧
    findVal (migrate_settings m) "auto_update" = none ∧
    (∀ q : ℚ, findVal m "variance_covered" = some (.num (.fin q)) →
      findVal (migrate_settings m) "variance_covered" =
        some (.num (.fin (pyInt q : ℚ)))) ∧
    (∀ x : FloatV, x.isFinite = false →
      findVal m "variance_covered" = some (.num x) →
      findVal (migrate_settings m) "variance_covered" =
        some (.num (.fin 100))) ∧
    (∀ s : String, findVal m "variance_covered" = some (.str s) →
      findVal (migrate_settings m) "variance_covered" = some (.str s)) ∧
    (findVal m "variance_covered" = none →
      findVal (migrate_settings m) "variance_covered" = none) ∧
    (∀ x : FloatV, findVal m "ncomponents" = some (.num x) →
      (pyGtMax (.num x) = true →
        findVal (migrate_settings m) "ncomponents" =
          some (.num (.fin 100))) ∧
      (pyGtMax (.num x) = false →
        findVal (migrate_settings m) "ncomponents" =
          findVal m "ncomponents")) ∧
    (findVal m "ncomponents" = none →
      findVal (migrate_settings m) "ncomponents" = none) := by
  have hvcred : findVal (migrate_settings m) "variance_covered" =
      findVal (migrateVC m) "variance_covered" := by
    rw [migrate_settings, findVal_popKey_ne _ _ _ (by decide),
      findVal_popKey_ne _ _ _ (by decide),
      findVal_popKey_ne _ _ _ (by decide),
      findVal_popKey_ne _ _ _ (by decide),
      migrateNC_ne _ _ (by decide)]
  have hncred : findVal (migrate_settings m) "ncomponents" =
      findVal (migrateNC (migrateVC m)) "ncomponents" := by
    rw [migrate_settings, findVal_popKey_ne _ _ _ (by decide),
      findVal_popKey_ne _ _ _ (by decide),
      findVal_popKey_ne _ _ _ (by decide),
      findVal_popKey_ne _ _ _ (by decide)]
  have hvcnc : findVal (migrateVC m) "ncomponents" =
      findVal m "ncomponents" := migrateVC_ne _ _ (by decide)
  refine ⟨?_, ?_, ?_, ?_, ?_, ?_, ?_, ?_, ?_, ?_, ?_⟩
  · intro k hk
    simp only [List.mem_cons, List.not_mem_nil, or_false, not_or] at hk
    obtain ⟨h1, h2, h3, h4, h5, h6⟩ := hk
    rw [migrate_settings, findVal_popKey_ne _ _ _ h6,
      findVal_popKey_ne _ _ _ h5, findVal_popKey_ne _ _ _ h4,
      findVal_popKey_ne _ _ _ h3, migrateNC_ne _ _ h2,
      migrateVC_ne _ _ h1]
  · rw [migrate_settings, findVal_popKey_ne _ _ _ (by decide),
      findVal_popKey_ne _ _ _ (by decide),
      findVal_popKey_ne _ _ _ (by decide)]
    exact findVal_popKey_self _ _
  · rw [migrate_settings, findVal_popKey_ne _ _ _ (by decide),
      findVal_popKey_ne _ _ _ (by decide)]
    exact findVal_popKey_self _ _
  · rw [migrate_settings, findVal_popKey_ne _ _ _ (by decide)]
    exact findVal_popKey_self _ _
  · rw [migrate_settings]
    exact findVal_popKey_self _ _
  · intro q hq
    rw [hvcred, migrateVC, hq, findVal_setKey_self, hq]
    rfl
  · intro x hxf hq
    rw [hvcred, migrateVC, hq]
    rcases x with q | - | - | -
    · simp [FloatV.isFinite] at hxf
    all_goals rw [findVal_setKey_self, hq]
    all_goals rfl
  · intro s hs
    rw [hvcred, migrateVC, hs]
    exact hs
  · intro hnone
    rw [hvcred, migrateVC, hnone]
    exact hnone
  · intro x hx
    have hx' : findVal (migrateVC m) "ncomponents" =
        some (PyVal.num x) := hvcnc.trans hx
    constructor
    · intro hgt
      rw [hncred, migrateNC, hx']
      simp only [Option.getD_some, hgt, if_true]
      rw [findVal_setKey_self, hx']
      rfl
    · intro hgt
      rw [hncred, migrateNC, hx']
      simp only [Option.getD_some, hgt, Bool.false_eq_true, if_false]
      exact hvcnc
  · intro hnone
    have hx' : findVal (migrateVC m) "ncomponents" = none :=
      hvcnc.trans hnone
    rw [hncred, migrateNC, hx']
    have hgd : pyGtMax ((none : Option PyVal).getD
        (PyVal.num (FloatV.fin 0))) = false := by
      norm_num [pyGtMax]
    rw [hgd]
    simp only [Bool.false_eq_true, if_false]
    exact hx'

def mC10 : SettingsDict :=
  [("variance_covered", PyVal.num FloatV.nan),
   ("ncomponents", PyVal.num (FloatV.fin 150)),
   ("decomposition_idx", PyVal.num (FloatV.fin 1)),
   ("batch_size", PyVal.num (FloatV.fin 2)),
   ("address", PyVal.str "localhost"),
   ("auto_update", PyVal.num (FloatV.fin 0)),
   ("axis_labels", PyVal.num (FloatV.fin 10))]

theorem migrate_settings_spec_witness :
    findVal (migrate_settings mC10) "axis_labels" =
      findVal mC10 "axis_labels" ∧
    findVal (migrate_settings mC10) "batch_size" = none ∧
    findVal (migrate_settings mC10) "variance_covered" =
      some (PyVal.num (FloatV.fin 100)) ∧
    findVal (migrate_settings mC10) "ncomponents" =
      some (PyVal.num (FloatV.fin 100)) := by
  obtain ⟨h1, h2, h3, h4, h5, h6, h7, h8, h9, h10, h11⟩ :=
    migrate_settings_spec mC10
  exact ⟨h1 "axis_labels" (by decide), h3,
    h7 FloatV.nan rfl rfl,
    (h10 (FloatV.fin 150) rfl).1 (by norm_num [pyGtMax])⟩

theorem sorted_getD_le (l : List ℚ) (hsort : l.Sorted (· ≤ ·)) (i j : ℕ)
    (hij : i ≤ j) (hj : j < l.length) : l.getD i 0 ≤ l.getD j 0 := by
  have hi : i < l.length := lt_of_le_of_lt hij hj
  rw [List.getD_eq_getElem?_getD, List.getD_eq_getElem?_getD,
    List.getElem?_eq_getElem hi, List.getElem?_eq_getElem hj]
  simp only [Option.getD_some]
  rcases lt_or_eq_of_le hij with hlt | rfl
  · exact List.pairwise_iff_getElem.mp hsort i j hi hj hlt
  · exact le_refl _

def fdC3 : Fitted := ⟨[0], [0], [[1]], ["a"], ⟨["PC1"], [[0]], [], [], []⟩⟩

def wC3 : OWPCA := ⟨none, 1, 50, some fdC3, none, 0, 0, false, 0⟩

/-- Claim C3 counterexample: on the installed (degenerate but
finite-cumulative) spectrum `[0]` of length 1 with `componentCount = 1`
and `variancePercent = 50` — a state satisfying the invariant — a single
`resolveCount` call takes the re-derive branch (since
`cumulative[0] = 0 = ⌊50/100⌋`) and its unclamped search sets
`componentCount := 2 > spectrumLength = 1`, violating the invariant. -/
theorem selection_invariant_cex :
    SelInvariant wC3 ∧
    spectrumLength wC3 = 1 ∧
    (selStep wC3 SelOp.resolve).ncomponents = 2 ∧
    ¬ SelInvariant (selStep wC3 SelOp.resolve) := by
  refine ⟨?_, rfl, ?_, ?_⟩ <;>
    norm_num [SelInvariant, spectrumLength, selStep, wC3, fdC3,
      OWPCA.nselected_components, searchsorted, pyInt]

theorem selInvariant_of (w : OWPCA) (fd : Fitted) (hpca : w.pca = some fd)
    (h1 : 0 ≤ w.variance_covered) (h2 : w.variance_covered ≤ 100)
    (h3 : w.ncomponents = 0 ∨ (1 ≤ w.ncomponents ∧
      w.ncomponents ≤ fd.explained_variance_ratio_.length)) :
    SelInvariant w := by
  refine ⟨h1, h2, ?_⟩
  simpa [spectrumLength, hpca] using h3

theorem selInvariant_elim (w : OWPCA) (fd : Fitted)
    (hpca : w.pca = some fd) (h : SelInvariant w) :
    0 ≤ w.variance_covered ∧ w.variance_covered ≤ 100 ∧
    (w.ncomponents = 0 ∨ (1 ≤ w.ncomponents ∧
      w.ncomponents ≤ fd.explained_variance_ratio_.length)) := by
  obtain ⟨h1, h2, h3⟩ := h
  refine ⟨h1, h2, ?_⟩
  simpa [spectrumLength, hpca] using h3

/-- Claim C3 (amended): with a fitted spectrum installed — non-decreasing
cumulative values in `[0, 1]`, and additionally a positive first
cumulative value (true of any decomposition of non-degenerate data, whose
ratios are sorted descending with a positive leading ratio) — any single
`setByCount` (argument in the spin range `0..spectrumLength`),
`setByVariance` (argument in `1..100`) or `resolveCount` call preserves
the invariant `0 ≤ variancePercent ≤ 100` and
`componentCount ∈ {0} ∪ [1, spectrumLength]`.  Without the positive-head
proviso `resolveCount` can overshoot (see the counterexample). -/
theorem selection_invariant_preserved (w : OWPCA) (fd : Fitted)
    (op : SelOp)
    (hpca : w.pca = some fd)
    (hlen : fd.explained_variance_ratio_.length = fd.cumulative.length)
    (hlen1 : 1 ≤ fd.cumulative.length)
    (hmem : ∀ x ∈ fd.cumulative, 0 ≤ x ∧ x ≤ 1)
    (hsort : fd.cumulative.Sorted (· ≤ ·))
    (hpos : 0 < fd.cumulative.getD 0 0)
    (hok : selOpOK w op)
    (hinv : SelInvariant w) :
    SelInvariant (selStep w op) := by
  obtain ⟨hv0', hv100', hncb'⟩ := selInvariant_elim w fd hpca hinv
  cases op with
  | byCount n =>
    have hok' : n ≤ fd.explained_variance_ratio_.length := by
      simpa [selOpOK, spectrumLength, hpca] using hok
    have hb := getD_mem_bounds fd.cumulative hmem
      ((if n = 0 then fd.explained_variance_ratio_.length else n) - 1)
    have hpy := pyInt_mul100_mem _ hb.1 hb.2
    simp only [selStep]
    rw [setByCount_eq w fd hpca n]
    refine selInvariant_of _ fd hpca hpy.1 hpy.2 ?_
    show n = 0 ∨ (1 ≤ n ∧ n ≤ fd.explained_variance_ratio_.length)
    omega
  | byVariance p =>
    have hok' : 1 ≤ p ∧ p ≤ 100 := hok
    have hminle : min (searchsorted fd.cumulative ((p : ℚ) / 100) + 1)
        fd.cumulative.length ≤ fd.cumulative.length := Nat.min_le_right _ _
    have hminge : 1 ≤ min
        (searchsorted fd.cumulative ((p : ℚ) / 100) + 1)
        fd.cumulative.length := Nat.le_min.mpr ⟨by omega, hlen1⟩
    simp only [selStep]
    rw [setByVariance_eq w fd hpca p]
    refine selInvariant_of _ fd hpca ?_ ?_ ?_
    · show (0 : ℤ) ≤ p
      omega
    · show p ≤ (100 : ℤ)
      omega
    · show min (searchsorted fd.cumulative ((p : ℚ) / 100) + 1)
          fd.cumulative.length = 0 ∨
        (1 ≤ min (searchsorted fd.cumulative ((p : ℚ) / 100) + 1)
            fd.cumulative.length ∧
          min (searchsorted fd.cumulative ((p : ℚ) / 100) + 1)
              fd.cumulative.length ≤
            fd.explained_variance_ratio_.length)
      right
      exact ⟨hminge, by omega⟩
  | resolve =>
    simp only [selStep]
    rw [nselected_components_eq w fd hpca]
    by_cases hc : fd.cumulative.getD (resolvedCount w fd - 1) 0 ≠
        ((⌊(w.variance_covered : ℚ) / 100⌋ : ℤ) : ℚ)
    · rw [if_pos hc]
      have hb := getD_mem_bounds fd.cumulative hmem
        (resolvedCount w fd - 1)
      have hpy := pyInt_mul100_mem _ hb.1 hb.2
      exact selInvariant_of _ fd hpca hpy.1 hpy.2 hncb'
    · rw [if_neg hc]
      push_neg at hc
      have hrc : 1 ≤ resolvedCount w fd ∧
          resolvedCount w fd ≤ fd.explained_variance_ratio_.length := by
        unfold resolvedCount
        rcases hncb' with h0 | ⟨ha, hb2⟩
        · rw [if_pos h0]; omega
        · rw [if_neg (by omega)]; omega
      have hidx : resolvedCount w fd - 1 < fd.cumulative.length := by
        omega
      have hge : fd.cumulative.getD 0 0 ≤
          fd.cumulative.getD (resolvedCount w fd - 1) 0 :=
        sorted_getD_le _ hsort 0 _ (Nat.zero_le _) hidx
      have h100 : w.variance_covered = 100 := by
        by_contra hne
        have hvlt1 : (w.variance_covered : ℚ) / 100 < 1 := by
          rw [div_lt_one (by norm_num)]
          exact_mod_cast (show w.variance_covered < 100 by omega)
        have hv0q : (0 : ℚ) ≤ (w.variance_covered : ℚ) / 100 :=
          div_nonneg (by exact_mod_cast hv0') (by norm_num)
        have hfl : ⌊(w.variance_covered : ℚ) / 100⌋ = 0 :=
          Int.floor_eq_zero_iff.mpr ⟨hv0q, hvlt1⟩
        rw [hfl] at hc
        have hcontra : (0 : ℚ) <
            fd.cumulative.getD (resolvedCount w fd - 1) 0 :=
          lt_of_lt_of_le hpos hge
        rw [hc] at hcontra
        norm_num at hcontra
      have hfl1 : ⌊(w.variance_covered : ℚ) / 100⌋ = 1 := by
        rw [h100]; norm_num
      have hgd1 : fd.cumulative.getD (resolvedCount w fd - 1) 0 = 1 := by
        rw [hc, hfl1]; norm_num
      have hssle : searchsorted fd.cumulative
          ((w.variance_covered : ℚ) / 100) ≤ resolvedCount w fd - 1 := by
        apply searchsorted_le_of_ge
        rw [hgd1, h100]
        norm_num
      refine selInvariant_of _ fd hpca hv0' hv100' ?_
      show searchsorted fd.cumulative
            ((w.variance_covered : ℚ) / 100) + 1 = 0 ∨
          (1 ≤ searchsorted fd.cumulative
              ((w.variance_covered : ℚ) / 100) + 1 ∧
            searchsorted fd.cumulative
                ((w.variance_covered : ℚ) / 100) + 1 ≤
              fd.explained_variance_ratio_.length)
      right
      exact ⟨by omega, by omega⟩

def fdC3w : Fitted := ⟨[3/5, 2/5], [3/5, 1], [[1, 0], [0, 1]],
  ["a", "b"], ⟨["PC1", "PC2"], [[1, 2]], [], [], []⟩⟩

def wC3w : OWPCA := ⟨none, 1, 60, some fdC3w, none, 0, 0, false, 0⟩

theorem selection_invariant_preserved_witness :
    SelInvariant (selStep wC3w SelOp.resolve) :=
  selection_invariant_preserved wC3w fdC3w SelOp.resolve rfl rfl
    (by decide) (by norm_num [fdC3w]) (by norm_num [fdC3w, List.Sorted])
    (by norm_num [fdC3w]) trivial (by decide)
